import Mathlib

/-!
# Verification of the polyforecast pipeline

Shallow embedding of the polyforecast repository's core pipeline
(news aggregation, probability extraction, EV/Kelly decision engine,
calibration tracking) and proofs of the specification's claims about it.

Python floats are modelled as exact rationals (`ℚ`), datetimes as natural
numbers (with `0` standing for `datetime.min`), and SQLite tables as lists
of row structures.
-/

namespace Polyforecast

/-! ## Decision engine (src/forecasting/ev_calculator.py) -/

/-- `Recommendation` enum from src/forecasting/models.py. -/
inductive Recommendation where
  | STRONG_BUY
  | BUY
  | HOLD
  | AVOID
deriving DecidableEq, Repr

/-- `compute_ev` from ev_calculator.py: EV per dollar = bot - market. -/
def compute_ev (bot_prob market_prob : ℚ) : ℚ :=
  bot_prob - market_prob

/-- `compute_kelly` from ev_calculator.py:
if `market_prob <= 0 or market_prob >= 1` return 0;
`b = (1 - market_prob) / market_prob`; if `b <= 0` return 0;
`kelly = (b*p - q)/b` with `q = 1 - p`; return `max(0.0, kelly * 0.5)`. -/
def compute_kelly (bot_prob market_prob : ℚ) : ℚ :=
  if market_prob ≤ 0 ∨ market_prob ≥ 1 then 0
  else
    let b := (1 - market_prob) / market_prob
    if b ≤ 0 then 0
    else
      let p := bot_prob
      let q := 1 - p
      let kelly := (b * p - q) / b
      max 0 (kelly * (1/2))

/-- `classify_recommendation` from ev_calculator.py. -/
def classify_recommendation (ev : ℚ) : Recommendation :=
  if ev > 1/10 then .STRONG_BUY
  else if ev > 1/20 then .BUY
  else if ev > 0 then .HOLD
  else .AVOID

/-- Banker's rounding (`round(x, 4)` in Python rounds half to even),
modelled exactly on rationals. -/
def roundTo4 (x : ℚ) : ℚ :=
  let y := x * 10000
  let n : ℤ := ⌊y⌋
  let frac := y - n
  let r : ℤ :=
    if frac < 1/2 then n
    else if frac > 1/2 then n + 1
    else if n % 2 = 0 then n else n + 1
  (r : ℚ) / 10000

/-- `OutcomeForecast` from src/forecasting/models.py (decision fields). -/
structure OutcomeForecast where
  outcome : String
  bot_probability : ℚ
  market_probability : ℚ
  ev_per_dollar : ℚ
  kelly_fraction : ℚ
  recommendation : Recommendation
deriving DecidableEq, Repr

/-- `evaluate_outcome` from ev_calculator.py. -/
def evaluate_outcome (outcome : String) (bot_prob market_prob : ℚ) :
    OutcomeForecast :=
  let ev := compute_ev bot_prob market_prob
  let kelly := compute_kelly bot_prob market_prob
  { outcome := outcome
    bot_probability := bot_prob
    market_probability := market_prob
    ev_per_dollar := roundTo4 ev
    kelly_fraction := roundTo4 kelly
    recommendation := classify_recommendation ev }

/-! ## The per-token loop of `analyze_market` (src/forecasting/engine.py,
lines 108–113): for each market token, look the outcome up in the
extracted probability mapping with default `0.5 / len(market.tokens)`,
default the market probability to `0.5` when the price is not positive,
and evaluate the outcome. -/

/-- A market token: outcome label plus current price
(src/polymarket/models.py). -/
structure Token where
  outcome : String
  price : ℚ
deriving DecidableEq, Repr

/-- `probs.get(key, default)` on the extraction dict, modelled as first
match in an association list. -/
def dictGet (probs : List (String × ℚ)) (key : String) (default : ℚ) : ℚ :=
  match probs.find? (fun kv => kv.1 = key) with
  | some kv => kv.2
  | none => default

/-- The outcome-forecast loop of `analyze_market` (engine.py 108–113):
`bot_prob = probs.get(token.outcome, 0.5 / len(market.tokens))`,
`market_prob = token.price if token.price > 0 else 0.5`. -/
def analyze_market_outcomes (probs : List (String × ℚ)) (tokens : List Token) :
    List OutcomeForecast :=
  tokens.map (fun token =>
    let bot_prob := dictGet probs token.outcome ((1/2) / (tokens.length : ℚ))
    let market_prob := if token.price > 0 then token.price else 1/2
    evaluate_outcome token.outcome bot_prob market_prob)

/-! ## Calibration tracker (src/database/repository.py)

The `predictions` SQLite table is modelled as a list of rows; datetimes are
naturals. -/

/-- A row of the `predictions` table (the columns `resolve_prediction` and
`get_calibration_data` read or write). -/
structure PredRow where
  id : Nat
  condition_id : String
  outcome : String
  bot_probability : ℚ
  recommendation : Recommendation
  resolved : Bool
  actual_outcome : Option String
  resolution_date : Option Nat
  brier_component : Option ℚ
deriving DecidableEq, Repr

/-- The `WHERE condition_id = ? AND resolved = 0` selection of
`resolve_prediction`. -/
def unresolvedFor (condition_id : String) (r : PredRow) : Bool :=
  r.condition_id == condition_id && !r.resolved

/-- The per-row UPDATE of `resolve_prediction`:
`actual = 1.0 if row["outcome"].lower() == winning_outcome.lower() else 0.0`,
`brier = (row["bot_probability"] - actual) ** 2`, then
`SET resolved = 1, actual_outcome = ?, resolution_date = ?, brier_component = ?`. -/
def resolveRow (winning_outcome : String) (now : Nat) (r : PredRow) : PredRow :=
  let actual : ℚ := if r.outcome.toLower = winning_outcome.toLower then 1 else 0
  { r with
    resolved := true
    actual_outcome := some winning_outcome
    resolution_date := some now
    brier_component := some ((r.bot_probability - actual) ^ 2) }

/-- `resolve_prediction` from repository.py: select the market's unresolved
rows, update each of them (since `id` is the table's primary key, the
per-id UPDATE loop is a predicate update), and return the new table plus
the number of updated rows. -/
def resolve_prediction (db : List PredRow) (condition_id winning_outcome : String)
    (now : Nat) : List PredRow × Nat :=
  (db.map fun r =>
      if unresolvedFor condition_id r then resolveRow winning_outcome now r else r,
   (db.filter (unresolvedFor condition_id)).length)

/-- A calibration bucket as returned by `get_calibration_data`. -/
structure CalibrationBucket where
  bucket_lower : ℚ
  bucket_upper : ℚ
  predicted_avg : ℚ
  actual_frequency : ℚ
  count : Nat
deriving DecidableEq, Repr

/-- The SQL `CASE WHEN outcome = actual_outcome THEN 1.0 ELSE 0.0 END`
(a NULL `actual_outcome` compares as not equal). -/
def hitIndicator (r : PredRow) : ℚ :=
  if r.actual_outcome = some r.outcome then 1 else 0

/-- The row selection of one bucket query:
`resolved = 1 AND brier_component IS NOT NULL AND bot_probability >= low
AND bot_probability < high`. -/
def calibRowFilter (low high : ℚ) (r : PredRow) : Bool :=
  r.resolved && r.brier_component.isSome
    && decide (low ≤ r.bot_probability) && decide (r.bot_probability < high)

/-- The aggregate row of one bucket query of `get_calibration_data`
(`AVG` = sum/count, `COUNT(*)` = number of selected rows). -/
def bucketFor (db : List PredRow) (i : Nat) : CalibrationBucket :=
  let low : ℚ := (i : ℚ) / 10
  let high : ℚ := low + 1/10
  let rows := db.filter (calibRowFilter low high)
  { bucket_lower := low
    bucket_upper := high
    predicted_avg := (rows.map PredRow.bot_probability).sum / rows.length
    actual_frequency := (rows.map hitIndicator).sum / rows.length
    count := rows.length }

/-- `get_calibration_data` from repository.py: for each of the ten buckets
`[i/10, i/10 + 0.1)` run the aggregate query and keep the bucket only when
its row count is positive. -/
def get_calibration_data (db : List PredRow) : List CalibrationBucket :=
  (List.range 10).filterMap fun i =>
    if (bucketFor db i).count = 0 then none else some (bucketFor db i)

/-- Fixture: the spec's three-row calibration example
(bot probabilities 0.62, 0.68, 0.95; hits yes/no/yes). -/
def exampleDb : List PredRow :=
  [{ id := 1, condition_id := "m1", outcome := "Yes", bot_probability := 62/100,
     recommendation := .BUY, resolved := true, actual_outcome := some "Yes",
     resolution_date := some 1, brier_component := some (1444/10000) },
   { id := 2, condition_id := "m2", outcome := "Yes", bot_probability := 68/100,
     recommendation := .BUY, resolved := true, actual_outcome := some "No",
     resolution_date := some 1, brier_component := some (4624/10000) },
   { id := 3, condition_id := "m3", outcome := "No", bot_probability := 95/100,
     recommendation := .BUY, resolved := true, actual_outcome := some "No",
     resolution_date := some 1, brier_component := some (25/10000) }]

/-- Fixture: a one-row table for the resolution witness. -/
def exampleRow : PredRow :=
  { id := 1, condition_id := "m1", outcome := "Yes", bot_probability := 8/10,
    recommendation := .BUY, resolved := false, actual_outcome := none,
    resolution_date := none, brier_component := none }

/-! ## Source aggregator (src/news/client.py) -/

/-- `Article` from src/news/models.py. The optional publication timestamp
is modelled as a natural number, `0` standing for `datetime.min`. -/
structure Article where
  title : String
  source : String
  url : String
  published_at : Option Nat
  description : String
deriving DecidableEq, Repr

/-- The merge/dedup loop of `fetch_articles_for_market` (client.py
127–139): walk the providers' articles in order and keep an article when
its URL is non-empty (Python's `if art.url`) and not yet seen. -/
def mergeDedup : List Article → List String → List Article
  | [], _ => []
  | a :: rest, seen =>
    if a.url ≠ "" ∧ a.url ∉ seen then a :: mergeDedup rest (a.url :: seen)
    else mergeDedup rest seen

/-- The sort key of `articles.sort(key=..., reverse=True)` (client.py
142–145): `a.published_at or datetime.min`. -/
def sortKey (a : Article) : Nat := a.published_at.getD 0

/-- The descending comparison used by the recency sort: `a` may precede
`b` when `a` is at least as recent. -/
def moreRecent (a b : Article) : Prop := sortKey b ≤ sortKey a

instance : DecidableRel moreRecent := fun _ _ => Nat.decLe _ _

instance : IsTotal Article moreRecent :=
  ⟨fun a b => le_total (sortKey b) (sortKey a)⟩

instance : IsTrans Article moreRecent :=
  ⟨fun _ _ _ h1 h2 => le_trans h2 h1⟩

/-- `articles.sort(key=lambda a: a.published_at or datetime.min,
reverse=True)`: a stable sort, most recent first; articles without a
timestamp take the minimum key. Insertion sort with `moreRecent` places an
element before the first existing element it is at least as recent as, so
equal keys keep their original order — the observable behaviour of
Python's stable `list.sort(..., reverse=True)`. -/
def sortByRecency (l : List Article) : List Article :=
  List.insertionSort moreRecent l

/-- `fetch_articles_for_market` (client.py 104–152) after the provider
calls return: a provider that raised contributes nothing (`none` here, the
`isinstance(result, Exception): continue` arm); the successful providers'
lists are walked in order, URL-deduplicated, sorted by recency and
truncated to `max_articles`. -/
def fetch_articles_for_market (results : List (Option (List Article)))
    (max_articles : Nat) : List Article :=
  (sortByRecency (mergeDedup ((results.filterMap id).flatten) [])).take
    max_articles

/-- Fixture: an article without a URL (Python falsy `url`). -/
def noUrlArticle : Article :=
  { title := "t", source := "s", url := "", published_at := some 5,
    description := "d" }

/-- Fixtures: articles with URLs for the aggregator witnesses. -/
def urlArticle1 : Article :=
  { title := "t1", source := "s1", url := "u", published_at := some 10,
    description := "d1" }

def urlArticle2 : Article :=
  { title := "t2", source := "s2", url := "v", published_at := some 3,
    description := "d2" }

/-! ## Probability extractor (src/forecasting/engine.py,
`_parse_probabilities`)

The regex search is embedded as a deterministic scanner over character
lists. The pattern `{label}\s*:\s*(0?\.\d+|1\.0+|0+\.0+|1)` (IGNORECASE,
with the label literal thanks to `re.escape`) has the capture group at its
end, so the leftmost match wins and each alternative is tried in order at
a position; greediness is deterministic because the character classes of
adjacent pieces are disjoint. -/

/-- Python's `\s` (ASCII whitespace). -/
def pyWhitespace (c : Char) : Bool :=
  c == ' ' || c == '\t' || c == '\n' || c == '\r'
    || c == Char.ofNat 11 || c == Char.ofNat 12

/-- The regex class `\d` (codepoints of '0'..'9'). -/
def isDigit (c : Char) : Bool := 48 ≤ c.toNat && c.toNat ≤ 57

/-- Value of a most-significant-first decimal digit string. -/
def digitsToNat : List Char → Nat
  | [] => 0
  | c :: rest => (c.toNat - 48) * 10 ^ rest.length + digitsToNat rest

/-- Integer and fraction digits of a matched numeral
(`[digits]['.'digits]`). -/
def splitNumeral (s : List Char) : List Char × List Char :=
  match s.drop (s.takeWhile isDigit).length with
  | '.' :: fp => (s.takeWhile isDigit, fp)
  | _ => (s.takeWhile isDigit, [])

/-- Python `float()` on the numerals the pattern can match, as an exact
rational. -/
def pyFloat (s : List Char) : ℚ :=
  (digitsToNat (splitNumeral s).1 : ℚ)
    + (digitsToNat (splitNumeral s).2 : ℚ) / 10 ^ (splitNumeral s).2.length

/-- `\.\d+` (used by the `0?\.\d+` alternative); returns the matched
characters. -/
def matchDotDigits : List Char → Option (List Char)
  | [] => none
  | c :: rest =>
    if c = '.' then
      if (rest.takeWhile isDigit).isEmpty then none
      else some ('.' :: rest.takeWhile isDigit)
    else none

/-- Alternative `0?\.\d+`. When the text starts with '0' the optional '0'
must be consumed (the empty option would next require '.', impossible on
'0'). -/
def branch1 : List Char → Option (List Char)
  | [] => none
  | c :: rest =>
    if c = '0' then (matchDotDigits rest).map (fun m => '0' :: m)
    else matchDotDigits (c :: rest)

/-- Alternative `1\.0+`. -/
def branch2 : List Char → Option (List Char)
  | c :: d :: rest =>
    if c = '1' ∧ d = '.' then
      if (rest.takeWhile (fun c => c == '0')).isEmpty then none
      else some ('1' :: '.' :: rest.takeWhile (fun c => c == '0'))
    else none
  | _ => none

/-- Alternative `0+\.0+` (shrinking the greedy `0+` cannot help since the
next character would still not be '.'). -/
def branch3 (s : List Char) : Option (List Char) :=
  if (s.takeWhile (fun c => c == '0')).isEmpty then none
  else
    match s.drop (s.takeWhile (fun c => c == '0')).length with
    | '.' :: rest =>
      if (rest.takeWhile (fun c => c == '0')).isEmpty then none
      else
        some (s.takeWhile (fun c => c == '0')
          ++ '.' :: rest.takeWhile (fun c => c == '0'))
    | _ => none

/-- Alternative `1`. -/
def branch4 : List Char → Option (List Char)
  | [] => none
  | c :: _ => if c = '1' then some ['1'] else none

/-- The full alternation, first matching alternative wins. -/
def matchNumber (s : List Char) : Option (List Char) :=
  (branch1 s).orElse fun _ =>
    (branch2 s).orElse fun _ =>
      (branch3 s).orElse fun _ => branch4 s

/-- Case-insensitive literal match of the (re.escape'd) label; returns the
remaining characters. -/
def matchLower : List Char → List Char → Option (List Char)
  | s, [] => some s
  | [], _ :: _ => none
  | c :: cs, d :: ds =>
    if c.toLower = d.toLower then matchLower cs ds else none

/-- One attempt of `{label}\s*:\s*(number)` at the current position. -/
def matchPattern (label s : List Char) : Option (List Char) :=
  match matchLower s label with
  | none => none
  | some r1 =>
    match r1.dropWhile pyWhitespace with
    | [] => none
    | c :: r3 =>
      if c = ':' then matchNumber (r3.dropWhile pyWhitespace) else none

/-- `re.search`: try the pattern at each position left to right, return
the first match's captured numeral. -/
def searchPattern (label : List Char) (s : List Char) : Option (List Char) :=
  match matchPattern label s with
  | some m => some m
  | none =>
    match s with
    | [] => none
    | _ :: rest => searchPattern label rest

/-- Does `pat` start `s`? -/
def startsWithChars : List Char → List Char → Bool
  | _, [] => true
  | [], _ :: _ => false
  | c :: cs, d :: ds => c == d && startsWithChars cs ds

/-- The suffix of `s` after the last occurrence of `pat`
(`none` when `pat` does not occur). Since `"PROBABILITIES:"` has no
self-overlap this is exactly Python's `s.split(pat)[-1]` when present. -/
def afterLast (s pat : List Char) : Option (List Char) :=
  match s with
  | [] => if pat.isEmpty then some [] else none
  | c :: rest =>
    match afterLast rest pat with
    | some r => some r
    | none =>
      if startsWithChars (c :: rest) pat
      then some ((c :: rest).drop pat.length)
      else none

/-- The literal block marker. -/
def probMarker : List Char := "PROBABILITIES:".toList

/-- The extraction loop of `_parse_probabilities` before normalisation:
pick the section after the last `PROBABILITIES:` (whole text otherwise),
and for each outcome store the first matched numeral; outcomes with no
match stay absent (re-assignment of a duplicate outcome writes the same
value, hence the skip). -/
def extractStep (sec : List Char) (probs : List (String × List Char))
    (outcome : String) : List (String × List Char) :=
  if probs.any (fun kv => kv.1 == outcome) then probs
  else
    match searchPattern outcome.toList sec with
    | some m => probs ++ [(outcome, m)]
    | none => probs

def extractRaw (text : String) (outcomes : List String) :
    List (String × List Char) :=
  outcomes.foldl
    (extractStep ((afterLast text.toList probMarker).getD text.toList)) []

/-- The extracted mapping with numerals converted by `float()`. -/
def extractProbs (text : String) (outcomes : List String) :
    List (String × ℚ) :=
  (extractRaw text outcomes).map (fun kv => (kv.1, pyFloat kv.2))

/-- `_parse_probabilities` (engine.py 34–56): extract, then rescale all
values by their sum when the mapping is non-empty and the sum lies in
(0.9, 1.1) but is not exactly 1. -/
def parse_probabilities (text : String) (outcomes : List String) :
    List (String × ℚ) :=
  let probs := extractProbs text outcomes
  let total := (probs.map Prod.snd).sum
  if probs ≠ [] ∧ 9/10 < total ∧ total < 11/10 ∧ total ≠ 1 then
    probs.map (fun kv => (kv.1, kv.2 / total))
  else probs

/-- Fixture: a response whose extracted values sum to 0.95. -/
def exampleResponse : String :=
  "Reasoning here.\nPROBABILITIES:\nYes: 0.5\nNo: 0.45\n"

/-! ## Query deriver (src/news/relevance.py) -/

/-- The characters removed by `re.sub(r"[?!.,;:\x22\x27]", "", question)`
(the last two are the double and single quote). -/
def punctChars : List Char :=
  ['?', '!', '.', ',', ';', ':', Char.ofNat 34, Char.ofNat 39]

def removePunct (s : List Char) : List Char :=
  s.filter (fun c => !punctChars.contains c)

/-- Python `str.strip()`. -/
def pyStrip (s : List Char) : List Char :=
  ((s.dropWhile pyWhitespace).reverse.dropWhile pyWhitespace).reverse

/-- Python `str.split()` with no separator: split on whitespace runs,
dropping empty pieces. -/
def splitWsAux : List Char → List Char → List (List Char)
  | [], acc => if acc.isEmpty then [] else [acc.reverse]
  | c :: rest, acc =>
    if pyWhitespace c then
      if acc.isEmpty then splitWsAux rest []
      else acc.reverse :: splitWsAux rest []
    else splitWsAux rest (c :: acc)

def pySplit (s : List Char) : List (List Char) := splitWsAux s []

/-- The regex classes `[A-Z]` and `[a-z]` (ASCII codepoints). -/
def isUpperAZ (c : Char) : Bool := 65 ≤ c.toNat && c.toNat ≤ 90

def isLowerAZ (c : Char) : Bool := 97 ≤ c.toNat && c.toNat ≤ 122

/-- `[A-Z][a-z]+` at the head of the input; returns the match and the
rest. -/
def matchCapWord : List Char → Option (List Char × List Char)
  | [] => none
  | c :: rest =>
    if isUpperAZ c then
      if (rest.takeWhile isLowerAZ).isEmpty then none
      else some (c :: rest.takeWhile isLowerAZ,
        rest.drop (rest.takeWhile isLowerAZ).length)
    else none

/-- The greedy `(?:\s+[A-Z][a-z]+)*` continuation of a capitalised run;
each iteration needs at least one whitespace and a further capitalised
word, else the run ends there. -/
def matchCapRunExt : Nat → List Char → List Char → List Char × List Char
  | 0, acc, rest => (acc, rest)
  | fuel + 1, acc, rest =>
    if (rest.takeWhile pyWhitespace).isEmpty then (acc, rest)
    else
      match matchCapWord (rest.drop (rest.takeWhile pyWhitespace).length) with
      | none => (acc, rest)
      | some (w, rest2) =>
        matchCapRunExt fuel (acc ++ rest.takeWhile pyWhitespace ++ w) rest2

/-- `re.findall(r"(?:[A-Z][a-z]+(?:\s+[A-Z][a-z]+)*)", s)`: scan left to
right for non-overlapping matches, resuming after each match. -/
def findCapRuns : Nat → List Char → List (List Char)
  | 0, _ => []
  | fuel + 1, s =>
    match s with
    | [] => []
    | c :: rest =>
      match matchCapWord (c :: rest) with
      | some (w, rest1) =>
        (matchCapRunExt rest1.length w rest1).1
          :: findCapRuns fuel (matchCapRunExt rest1.length w rest1).2
      | none => findCapRuns fuel rest

def findEntities (s : List Char) : List (List Char) := findCapRuns s.length s

/-- `_STOPWORDS` from relevance.py. -/
def STOPWORDS : List String :=
  ["will", "the", "a", "an", "be", "is", "are", "was", "were", "been",
   "by", "in", "on", "at", "to", "for", "of", "with", "from", "as",
   "this", "that", "it", "its", "or", "and", "not", "no", "yes",
   "do", "does", "did", "has", "have", "had", "can", "could", "would",
   "should", "may", "might", "shall", "before", "after", "during",
   "what", "which", "who", "whom", "how", "when", "where", "why",
   "if", "than", "then", "about", "into", "through", "above", "below",
   "between", "up", "down", "out", "off", "over", "under", "again",
   "further", "once", "here", "there", "all", "each", "every", "both",
   "few", "more", "most", "other", "some", "such", "any", "only"]

/-- Python `str.lower()` on ASCII text, character by character
(extensionally `String.toLower`, but structurally recursive). -/
def strLower (s : String) : String := String.mk (s.data.map Char.toLower)

/-- Python `" ".join(l)`. -/
def joinSpaceAux : List String → List Char
  | [] => []
  | [w] => w.data
  | w :: rest => w.data ++ ' ' :: joinSpaceAux rest

def joinSpace (l : List String) : String := String.mk (joinSpaceAux l)

/-- The query list `extract_search_queries` builds before deduplication:
the cleaned question, then every capitalised-run entity that is not a
stop word and longer than 2 characters, then (when any keyword survives)
the first 6 non-stop-word keywords of the cleaned question joined by
spaces. -/
def rawQueries (question : String) : List String :=
  let cleaned := pyStrip (removePunct question.toList)
  let entities := (findEntities question.toList).filterMap (fun e =>
    if !STOPWORDS.contains (strLower (String.mk e)) && decide (e.length > 2)
    then some (String.mk e) else none)
  let keywords := (pySplit cleaned).filter (fun w =>
    !STOPWORDS.contains (strLower (String.mk w)) && decide (w.length > 2))
  (String.mk cleaned :: entities)
    ++ (if keywords.isEmpty then []
        else [joinSpace ((keywords.take 6).map String.mk)])

/-- Case-insensitive first-seen deduplication; `seen` holds the lowered
keys already emitted. -/
def dedupCIAux : List String → List String → List String
  | [], _ => []
  | q :: rest, seen =>
    if seen.contains (strLower q) then dedupCIAux rest seen
    else q :: dedupCIAux rest (strLower q :: seen)

def dedupCI (l : List String) : List String := dedupCIAux l []

/-- `extract_search_queries` from relevance.py: build the raw query list,
deduplicate case-insensitively preserving first-seen order, cap at
`max_queries`. -/
def extract_search_queries (question : String) (max_queries : Nat) :
    List String :=
  (dedupCI (rawQueries question)).take max_queries

end Polyforecast

namespace Polyforecast

/-! ## Theorems: decision engine claims -/

/-- C2: for bot_prob ∈ [0,1] and market_prob ∈ (0,1), `compute_kelly`
equals `max 0 ((b*p - (1-p))/b) * 0.5` with `b = (1-mp)/mp`, and lies in
[0, 1/2]; for market_prob outside (0,1) it returns 0. -/
theorem C2_compute_kelly_spec (p mp : ℚ) :
    (0 ≤ p → p ≤ 1 → 0 < mp → mp < 1 →
      compute_kelly p mp
        = max 0 ((((1 - mp) / mp) * p - (1 - p)) / ((1 - mp) / mp)) * (1/2)
      ∧ 0 ≤ compute_kelly p mp ∧ compute_kelly p mp ≤ 1/2)
    ∧ (¬ (0 < mp ∧ mp < 1) → compute_kelly p mp = 0) := by
  constructor
  · intro hp0 hp1 hmp0 hmp1
    have hb : 0 < (1 - mp) / mp := div_pos (by linarith) hmp0
    have hne : ¬ (mp ≤ 0 ∨ mp ≥ 1) := by
      push_neg
      exact ⟨hmp0, hmp1⟩
    have hbne : ¬ ((1 - mp) / mp ≤ 0) := not_le.mpr hb
    have hval : compute_kelly p mp
        = max 0 ((((1 - mp) / mp) * p - (1 - p)) / ((1 - mp) / mp) * (1/2)) := by
      simp only [compute_kelly, if_neg hne, if_neg hbne]
    constructor
    · rw [hval]
      rw [max_mul_of_nonneg _ _ (by norm_num : (0:ℚ) ≤ 1/2)]
      simp
    constructor
    · rw [hval]
      exact le_max_left _ _
    · rw [hval]
      have hk : (((1 - mp) / mp) * p - (1 - p)) / ((1 - mp) / mp) ≤ 1 := by
        rw [div_le_one hb]
        have h1p : 0 ≤ 1 - p := by linarith
        have hbp : ((1 - mp) / mp) * p ≤ (1 - mp) / mp :=
          mul_le_of_le_one_right hb.le hp1
        linarith
      have : (((1 - mp) / mp) * p - (1 - p)) / ((1 - mp) / mp) * (1/2) ≤ 1/2 := by
        nlinarith
      simp only [max_le_iff]
      constructor
      · norm_num
      · exact this
  · intro h
    push_neg at h
    by_cases h0 : 0 < mp
    · have := h h0
      simp only [compute_kelly]
      rw [if_pos]
      right
      exact this
    · simp only [compute_kelly]
      rw [if_pos]
      left
      exact le_of_not_lt h0

/-- Witness for C2 at bot_prob = 0.7, market_prob = 0.5 (and the
out-of-range case at market_prob = 1). -/
theorem C2_compute_kelly_spec_witness :
    compute_kelly (7/10) (1/2)
      = max 0 ((((1 - 1/2) / (1/2)) * (7/10) - (1 - 7/10)) / ((1 - 1/2) / (1/2)))
          * (1/2)
    ∧ 0 ≤ compute_kelly (7/10) (1/2) ∧ compute_kelly (7/10) (1/2) ≤ 1/2
    ∧ compute_kelly (7/10) 1 = 0 := by
  have h := C2_compute_kelly_spec (7/10) (1/2)
  have h1 := h.1 (by norm_num) (by norm_num) (by norm_num) (by norm_num)
  have h2 := (C2_compute_kelly_spec (7/10) 1).2 (by norm_num)
  exact ⟨h1.1, h1.2.1, h1.2.2, h2⟩

/-- C4: `classify_recommendation` maps ev > 0.10 to STRONG_BUY,
ev > 0.05 to BUY, ev > 0 to HOLD, else AVOID; in particular ev = 0.10
yields BUY and ev = 0 yields AVOID. -/
theorem C4_classify_recommendation_spec (ev : ℚ) :
    (ev > 1/10 → classify_recommendation ev = .STRONG_BUY)
    ∧ (1/20 < ev → ev ≤ 1/10 → classify_recommendation ev = .BUY)
    ∧ (0 < ev → ev ≤ 1/20 → classify_recommendation ev = .HOLD)
    ∧ (ev ≤ 0 → classify_recommendation ev = .AVOID)
    ∧ classify_recommendation (1/10) = .BUY
    ∧ classify_recommendation 0 = .AVOID := by
  refine ⟨?_, ?_, ?_, ?_, by norm_num [classify_recommendation],
    by norm_num [classify_recommendation]⟩
  · intro h
    simp only [classify_recommendation, if_pos h]
  · intro h1 h2
    simp only [classify_recommendation, if_neg (not_lt.mpr h2), if_pos h1]
  · intro h1 h2
    have : ¬ (ev > 1/10) := by linarith
    have h2' : ¬ (ev > 1/20) := not_lt.mpr h2
    simp only [classify_recommendation, if_neg this, if_neg h2', if_pos h1]
  · intro h
    have ha : ¬ (ev > 1/10) := by linarith
    have hb : ¬ (ev > 1/20) := by linarith
    have hc : ¬ (ev > 0) := not_lt.mpr h
    simp only [classify_recommendation, if_neg ha, if_neg hb, if_neg hc]

/-- Witness for C4 at ev = 0.2, 0.07, 0.03, -0.1. -/
theorem C4_classify_recommendation_spec_witness :
    classify_recommendation (2/10) = .STRONG_BUY
    ∧ classify_recommendation (7/100) = .BUY
    ∧ classify_recommendation (3/100) = .HOLD
    ∧ classify_recommendation (-(1/10)) = .AVOID := by
  refine ⟨(C4_classify_recommendation_spec (2/10)).1 (by norm_num),
    (C4_classify_recommendation_spec (7/100)).2.1 (by norm_num) (by norm_num),
    (C4_classify_recommendation_spec (3/100)).2.2.1 (by norm_num) (by norm_num),
    (C4_classify_recommendation_spec (-(1/10))).2.2.2.1 (by norm_num)⟩

/-- C1 (code bug): for a two-outcome market with no extracted
probabilities, `analyze_market` assigns each outcome a bot probability of
`0.5 / 2 = 1/4` — not the uniform prior `1/2` the spec requires — though
it is indeed never 0. -/
theorem C1_fallback_is_half_uniform :
    (analyze_market_outcomes []
        [⟨"Yes", 6/10⟩, ⟨"No", 4/10⟩]).map OutcomeForecast.bot_probability
      = [1/4, 1/4]
    ∧ (1/4 : ℚ) ≠ 1/2 ∧ (0 : ℚ) < 1/4 := by
  refine ⟨?_, by norm_num, by norm_num⟩
  simp only [analyze_market_outcomes, List.map, dictGet, List.find?,
    evaluate_outcome, List.length_cons, List.length_nil]
  norm_num

/-- C8: resolving a market updates exactly the not-yet-resolved rows of
that market identifier — setting the brier component to
`(bot_probability - 1{outcome == winning outcome, case-insensitive})²` and
marking them resolved — returns the number of rows updated, leaves every
other row unchanged, and resolving the same market again updates zero rows
and changes nothing. -/
theorem unresolvedFor_eq_true (cid : String) (r : PredRow) :
    unresolvedFor cid r = true ↔ r.condition_id = cid ∧ r.resolved = false := by
  simp [unresolvedFor]

theorem unresolvedFor_eq_false (cid : String) (r : PredRow) :
    unresolvedFor cid r = false
      ↔ ¬ (r.condition_id = cid ∧ r.resolved = false) := by
  rw [Bool.eq_false_iff, Ne, unresolvedFor_eq_true]

theorem C8_resolve_prediction_spec (db : List PredRow) (cid win : String)
    (now : Nat) :
    (resolve_prediction db cid win now).2 = db.countP (unresolvedFor cid)
    ∧ (∀ (i : Nat) (r : PredRow), db[i]? = some r →
        r.condition_id = cid → r.resolved = false →
        (resolve_prediction db cid win now).1[i]? = some
          { r with
            resolved := true
            actual_outcome := some win
            resolution_date := some now
            brier_component := some ((r.bot_probability -
              if r.outcome.toLower = win.toLower then 1 else 0) ^ 2) })
    ∧ (∀ (i : Nat) (r : PredRow), db[i]? = some r →
        ¬ (r.condition_id = cid ∧ r.resolved = false) →
        (resolve_prediction db cid win now).1[i]? = some r)
    ∧ (∀ (win2 : String) (now2 : Nat),
        resolve_prediction (resolve_prediction db cid win now).1 cid win2 now2
          = ((resolve_prediction db cid win now).1, 0)) := by
  refine ⟨(List.countP_eq_length_filter _ _).symm, ?_, ?_, ?_⟩
  · intro i r hi hcid hres
    have hok : unresolvedFor cid r = true :=
      (unresolvedFor_eq_true cid r).mpr ⟨hcid, hres⟩
    simp [resolve_prediction, hi, hok, resolveRow]
  · intro i r hi hnot
    have hok : unresolvedFor cid r = false :=
      (unresolvedFor_eq_false cid r).mpr hnot
    simp [resolve_prediction, hi, hok]
  · intro win2 now2
    have hall : ∀ r ∈ (resolve_prediction db cid win now).1,
        unresolvedFor cid r = false := by
      intro r hr
      simp only [resolve_prediction, List.mem_map] at hr
      obtain ⟨s, _, rfl⟩ := hr
      by_cases h : unresolvedFor cid s = true
      · rw [if_pos h]
        rw [unresolvedFor_eq_false]
        intro hc
        simp [resolveRow] at hc
      · rw [if_neg h]
        exact Bool.eq_false_iff.mpr h
    refine Prod.ext ?_ ?_
    · show List.map _ (resolve_prediction db cid win now).1
        = (resolve_prediction db cid win now).1
      conv_rhs => rw [← List.map_id (resolve_prediction db cid win now).1]
      refine List.map_congr_left fun r hr => ?_
      rw [hall r hr]
      simp
    · show (List.filter _ (resolve_prediction db cid win now).1).length = 0
      rw [List.length_eq_zero]
      exact List.filter_eq_nil_iff.mpr fun r hr => by rw [hall r hr]; simp

/-- Witness for C8 on a one-row table: the row is updated with
brier = (0.8 - 1)², and a second resolution is a no-op. -/
theorem C8_resolve_prediction_spec_witness :
    (resolve_prediction [exampleRow] "m1" "Yes" 7).1[0]? = some
      { exampleRow with
        resolved := true
        actual_outcome := some "Yes"
        resolution_date := some 7
        brier_component := some ((exampleRow.bot_probability -
          if exampleRow.outcome.toLower = "Yes".toLower then 1 else 0) ^ 2) }
    ∧ resolve_prediction (resolve_prediction [exampleRow] "m1" "Yes" 7).1
        "m1" "Yes" 9
        = ((resolve_prediction [exampleRow] "m1" "Yes" 7).1, 0) := by
  have h := C8_resolve_prediction_spec [exampleRow] "m1" "Yes" 7
  exact ⟨h.2.1 0 exampleRow rfl rfl rfl, h.2.2.2 "Yes" 9⟩

/-- C9: the calibration computation uses the ten fixed buckets
`[i/10, i/10 + 0.1)`; every returned bucket has a positive sample count and
reports the mean bot probability, mean hit rate and count of its rows;
every bucket with at least one matching row is present (so only empty
buckets are omitted); and on the spec's three-row example it returns
exactly the buckets [0.6,0.7) ↦ (0.65, 0.5, 2) and [0.9,1.0) ↦ (0.95, 1, 1). -/
theorem C9_get_calibration_data_spec :
    (∀ (db : List PredRow), ∀ b ∈ get_calibration_data db,
        0 < b.count ∧ ∃ i : Nat, i < 10 ∧ b = bucketFor db i)
    ∧ (∀ (db : List PredRow) (i : Nat), i < 10 → 0 < (bucketFor db i).count →
        bucketFor db i ∈ get_calibration_data db)
    ∧ get_calibration_data exampleDb
        = [{ bucket_lower := 6/10, bucket_upper := 7/10,
             predicted_avg := 65/100, actual_frequency := 1/2, count := 2 },
           { bucket_lower := 9/10, bucket_upper := 1,
             predicted_avg := 95/100, actual_frequency := 1, count := 1 }] := by
  refine ⟨?_, ?_, ?_⟩
  · intro db b hb
    simp only [get_calibration_data, List.mem_filterMap, List.mem_range] at hb
    obtain ⟨i, hi, hf⟩ := hb
    by_cases h : (bucketFor db i).count = 0
    · rw [if_pos h] at hf
      exact absurd hf (by simp)
    · rw [if_neg h] at hf
      obtain rfl := Option.some_injective _ hf
      exact ⟨Nat.pos_of_ne_zero h, i, hi, rfl⟩
  · intro db i hi hc
    simp only [get_calibration_data, List.mem_filterMap, List.mem_range]
    exact ⟨i, hi, by rw [if_neg (Nat.pos_iff_ne_zero.mp hc)]⟩
  · have hrange : List.range 10 = [0, 1, 2, 3, 4, 5, 6, 7, 8, 9] := rfl
    have hNoYes : ("No" : String) ≠ "Yes" := by decide
    norm_num [get_calibration_data, hrange, bucketFor, calibRowFilter,
      hitIndicator, exampleDb, List.filter_cons, List.filterMap_cons, hNoYes]
    rw [if_neg (List.cons_ne_nil _ _)]

theorem mem_mergeDedup_urls {l : List Article} {seen : List String} :
    ∀ a ∈ mergeDedup l seen, a.url ∉ seen ∧ a.url ≠ "" := by
  induction l generalizing seen with
  | nil => simp [mergeDedup]
  | cons b rest ih =>
    intro a ha
    rw [mergeDedup] at ha
    by_cases hc : b.url ≠ "" ∧ b.url ∉ seen
    · rw [if_pos hc] at ha
      rcases List.mem_cons.mp ha with rfl | ha'
      · exact ⟨hc.2, hc.1⟩
      · have h := ih a ha'
        exact ⟨fun hs => h.1 (List.mem_cons_of_mem _ hs), h.2⟩
    · rw [if_neg hc] at ha
      exact ih a ha

theorem nodup_mergeDedup_urls (l : List Article) (seen : List String) :
    ((mergeDedup l seen).map Article.url).Nodup := by
  induction l generalizing seen with
  | nil => simp [mergeDedup]
  | cons b rest ih =>
    rw [mergeDedup]
    by_cases hc : b.url ≠ "" ∧ b.url ∉ seen
    · rw [if_pos hc]
      refine List.nodup_cons.mpr ⟨?_, ih _⟩
      intro hmem
      obtain ⟨a, ha, hau⟩ := List.mem_map.mp hmem
      exact (mem_mergeDedup_urls a ha).1 (hau ▸ List.mem_cons_self _ _)
    · rw [if_neg hc]
      exact ih _

theorem find?_mergeDedup {l : List Article} {seen : List String} :
    ∀ a ∈ mergeDedup l seen, l.find? (fun b => b.url == a.url) = some a := by
  induction l generalizing seen with
  | nil => simp [mergeDedup]
  | cons b rest ih =>
    intro a ha
    rw [mergeDedup] at ha
    by_cases hc : b.url ≠ "" ∧ b.url ∉ seen
    · rw [if_pos hc] at ha
      rcases List.mem_cons.mp ha with rfl | ha'
      · exact List.find?_cons_of_pos _ (beq_self_eq_true _)
      · have hne : a.url ≠ b.url := by
          intro h
          exact (mem_mergeDedup_urls a ha').1 (h ▸ List.mem_cons_self _ _)
        rw [List.find?_cons_of_neg (p := fun c => c.url == a.url) (a := b) rest
          (fun h => hne (beq_iff_eq.mp h).symm)]
        exact ih a ha'
    · rw [if_neg hc] at ha
      have h := mem_mergeDedup_urls a ha
      have hne : b.url ≠ a.url := by
        intro heq
        rcases not_and_or.mp hc with h1 | h1
        · exact h.2 (heq ▸ not_not.mp h1)
        · exact h.1 (heq ▸ not_not.mp h1)
      rw [List.find?_cons_of_neg (p := fun c => c.url == a.url) (a := b) rest
        (fun h => hne (beq_iff_eq.mp h))]
      exact ih a ha

/-- C5: the aggregator's merge step yields pairwise-distinct URLs, each
output article is the first article of the merged provider stream bearing
its URL (first-wins metadata), the output is ordered most-recent-first
(missing timestamps take the minimum key, so they sort last), and it is
truncated to at most the requested count. -/
theorem C5_merge_sort_truncate_spec (results : List (Option (List Article)))
    (max_articles : Nat) :
    ((fetch_articles_for_market results max_articles).map Article.url).Nodup
    ∧ (∀ a ∈ fetch_articles_for_market results max_articles,
        ((results.filterMap id).flatten).find? (fun b => b.url == a.url)
          = some a)
    ∧ (fetch_articles_for_market results max_articles).Pairwise moreRecent
    ∧ (fetch_articles_for_market results max_articles).length
        ≤ max_articles := by
  refine ⟨?_, ?_, ?_, ?_⟩
  · have hd := nodup_mergeDedup_urls ((results.filterMap id).flatten) []
    have hperm :=
      List.perm_insertionSort moreRecent
        (mergeDedup ((results.filterMap id).flatten) [])
    have hs : ((sortByRecency
        (mergeDedup ((results.filterMap id).flatten) [])).map
          Article.url).Nodup :=
      ((hperm.map Article.url).nodup_iff).mpr hd
    rw [fetch_articles_for_market, List.map_take]
    exact hs.sublist (List.take_sublist _ _)
  · intro a ha
    have h1 := List.take_subset _ _ ha
    rw [sortByRecency] at h1
    have h2 := (List.perm_insertionSort moreRecent _).mem_iff.mp h1
    exact find?_mergeDedup a h2
  · have hs := List.sorted_insertionSort moreRecent
      (mergeDedup ((results.filterMap id).flatten) [])
    exact List.Pairwise.sublist (List.take_sublist _ _) hs
  · exact List.length_take_le _ _

/-- Witness for C5 on a two-provider-article input: the kept article is in
the output and is the first of the stream with its URL. -/
theorem C5_merge_sort_truncate_spec_witness :
    urlArticle1 ∈ fetch_articles_for_market [some [urlArticle1, urlArticle2]] 25
    ∧ ((([some [urlArticle1, urlArticle2]].filterMap id).flatten).find?
        (fun b => b.url == urlArticle1.url) = some urlArticle1) := by
  have h := C5_merge_sort_truncate_spec [some [urlArticle1, urlArticle2]] 25
  have hmem : urlArticle1
      ∈ fetch_articles_for_market [some [urlArticle1, urlArticle2]] 25 := by
    decide
  exact ⟨hmem, h.2.1 urlArticle1 hmem⟩

/-- C6 counterexample: an article whose URL is empty does NOT appear in
the aggregator's output — it is dropped by the merge loop, contradicting
the claim that it is still ranked. -/
theorem C6_missing_url_kept_counterexample :
    noUrlArticle ∉ fetch_articles_for_market [some [noUrlArticle]] 25 := by
  decide

/-- C6 (amended): an article whose URL is empty/absent is excluded not
just from deduplication but from the aggregator's output entirely — every
output article has a non-empty URL. -/
theorem C6_missing_url_excluded (results : List (Option (List Article)))
    (n : Nat) :
    ∀ a ∈ fetch_articles_for_market results n, a.url ≠ "" := by
  intro a ha
  have h1 := List.take_subset _ _ ha
  rw [sortByRecency] at h1
  have h2 := (List.perm_insertionSort moreRecent _).mem_iff.mp h1
  exact (mem_mergeDedup_urls a h2).2

/-- Witness for C6 (amended): a URL-bearing article flows through to the
output, and the theorem yields its non-empty URL. -/
theorem C6_missing_url_excluded_witness :
    urlArticle1 ∈ fetch_articles_for_market [some [urlArticle1]] 25
    ∧ urlArticle1.url ≠ "" := by
  have hmem : urlArticle1 ∈ fetch_articles_for_market [some [urlArticle1]] 25 := by
    decide
  exact ⟨hmem, C6_missing_url_excluded _ _ urlArticle1 hmem⟩

theorem sum_map_div (l : List ℚ) (c : ℚ) :
    (l.map (fun x => x / c)).sum = l.sum / c := by
  induction l with
  | nil => simp
  | cons x xs ih => simp [ih, add_div]

theorem parse_probabilities_fst (text : String) (outcomes : List String) :
    (parse_probabilities text outcomes).map Prod.fst
      = (extractProbs text outcomes).map Prod.fst := by
  simp only [parse_probabilities]
  split
  · simp [List.map_map, Function.comp]
  · rfl

/-- C3: when the extracted mapping is non-empty and its sum lies in
(0.9, 1.1) but is not 1, the extractor divides every value by the sum:
the result sums to exactly 1, pairwise ratios are preserved, and the key
set is unchanged (absent outcomes stay absent); when the sum is outside
(0.9, 1.1) the mapping is returned unchanged. -/
theorem C3_renormalization_spec (text : String) (outcomes : List String) :
    (extractProbs text outcomes ≠ [] →
      9/10 < ((extractProbs text outcomes).map Prod.snd).sum →
      ((extractProbs text outcomes).map Prod.snd).sum < 11/10 →
      ((extractProbs text outcomes).map Prod.snd).sum ≠ 1 →
        parse_probabilities text outcomes
          = (extractProbs text outcomes).map
              (fun kv =>
                (kv.1, kv.2 / ((extractProbs text outcomes).map Prod.snd).sum))
        ∧ ((parse_probabilities text outcomes).map Prod.snd).sum = 1
        ∧ (∀ i j : Nat,
            ((parse_probabilities text outcomes).map Prod.snd).getD i 0
              * ((extractProbs text outcomes).map Prod.snd).getD j 0
            = ((parse_probabilities text outcomes).map Prod.snd).getD j 0
              * ((extractProbs text outcomes).map Prod.snd).getD i 0)
        ∧ (parse_probabilities text outcomes).map Prod.fst
            = (extractProbs text outcomes).map Prod.fst)
    ∧ (¬ (9/10 < ((extractProbs text outcomes).map Prod.snd).sum
          ∧ ((extractProbs text outcomes).map Prod.snd).sum < 11/10) →
        parse_probabilities text outcomes = extractProbs text outcomes)
    ∧ (∀ o : String, o ∉ (extractProbs text outcomes).map Prod.fst →
        o ∉ (parse_probabilities text outcomes).map Prod.fst) := by
  refine ⟨?_, ?_, ?_⟩
  · intro hne h1 h2 h3
    have hT : (0:ℚ) < ((extractProbs text outcomes).map Prod.snd).sum := by
      linarith
    have heq : parse_probabilities text outcomes
        = (extractProbs text outcomes).map
            (fun kv =>
              (kv.1, kv.2 / ((extractProbs text outcomes).map Prod.snd).sum)) := by
      simp only [parse_probabilities]
      rw [if_pos ⟨hne, h1, h2, h3⟩]
    have hsnd : (parse_probabilities text outcomes).map Prod.snd
        = ((extractProbs text outcomes).map Prod.snd).map
            (fun x => x / ((extractProbs text outcomes).map Prod.snd).sum) := by
      rw [heq]
      simp [List.map_map, Function.comp]
    refine ⟨heq, ?_, ?_, parse_probabilities_fst text outcomes⟩
    · rw [hsnd, sum_map_div, div_self (ne_of_gt hT)]
    · intro i j
      have hval : ∀ k : Nat,
          ((parse_probabilities text outcomes).map Prod.snd).getD k 0
            = ((extractProbs text outcomes).map Prod.snd).getD k 0
              / ((extractProbs text outcomes).map Prod.snd).sum := by
        intro k
        rw [hsnd, List.getD_eq_getElem?_getD, List.getD_eq_getElem?_getD,
          List.getElem?_map]
        cases ((extractProbs text outcomes).map Prod.snd)[k]? with
        | none => simp
        | some v => simp
      rw [hval i, hval j]
      ring
  · intro h
    simp only [parse_probabilities]
    rw [if_neg]
    rintro ⟨-, ha, hb, -⟩
    exact h ⟨ha, hb⟩
  · intro o ho
    rw [parse_probabilities_fst]
    exact ho

theorem digitsToNat_lt (ds : List Char) (h : ∀ c ∈ ds, isDigit c = true) :
    digitsToNat ds < 10 ^ ds.length := by
  induction ds with
  | nil => simp [digitsToNat]
  | cons c rest ih =>
    have hc : c.toNat - 48 ≤ 9 := by
      have := h c (List.mem_cons_self _ _)
      simp only [isDigit, Bool.and_eq_true, decide_eq_true_eq] at this
      omega
    have hr : digitsToNat rest < 10 ^ rest.length :=
      ih fun d hd => h d (List.mem_cons_of_mem _ hd)
    have hm : (c.toNat - 48) * 10 ^ rest.length ≤ 9 * 10 ^ rest.length :=
      Nat.mul_le_mul_right _ hc
    simp only [digitsToNat, List.length_cons, pow_succ]
    omega

theorem digitsToNat_zeros (zs : List Char)
    (h : ∀ c ∈ zs, (c == '0') = true) : digitsToNat zs = 0 := by
  induction zs with
  | nil => rfl
  | cons c rest ih =>
    have hc : c = '0' := beq_iff_eq.mp (h c (List.mem_cons_self _ _))
    have h0 : ('0').toNat = 48 := rfl
    simp [digitsToNat, hc, h0, ih fun d hd => h d (List.mem_cons_of_mem _ hd)]

theorem splitNumeral_dot (ds : List Char) :
    splitNumeral ('.' :: ds) = ([], ds) := by
  have hdot : isDigit ('.') = false := by decide
  simp [splitNumeral, List.takeWhile_cons, hdot]

theorem splitNumeral_zero_dot (ds : List Char) :
    splitNumeral ('0' :: '.' :: ds) = (['0'], ds) := by
  have h0 : isDigit ('0') = true := by decide
  have hdot : isDigit ('.') = false := by decide
  simp [splitNumeral, List.takeWhile_cons, h0, hdot]

theorem splitNumeral_one_dot (zs : List Char) :
    splitNumeral ('1' :: '.' :: zs) = (['1'], zs) := by
  have h1 : isDigit ('1') = true := by decide
  have hdot : isDigit ('.') = false := by decide
  simp [splitNumeral, List.takeWhile_cons, h1, hdot]

theorem takeWhile_zeros_append (zs zs2 : List Char)
    (h : ∀ c ∈ zs, (c == '0') = true) :
    (zs ++ '.' :: zs2).takeWhile isDigit = zs := by
  induction zs with
  | nil =>
    have hdot : isDigit ('.') = false := by decide
    simp [List.takeWhile_cons, hdot]
  | cons c rest ih =>
    have hc : c = '0' := beq_iff_eq.mp (h c (List.mem_cons_self _ _))
    have h0 : isDigit ('0') = true := by decide
    simp [List.takeWhile_cons, hc, h0,
      ih fun d hd => h d (List.mem_cons_of_mem _ hd)]

theorem splitNumeral_zeros_dot (zs zs2 : List Char)
    (h : ∀ c ∈ zs, (c == '0') = true) :
    splitNumeral (zs ++ '.' :: zs2) = (zs, zs2) := by
  rw [splitNumeral]
  rw [takeWhile_zeros_append zs zs2 h]
  rw [List.drop_left]
  rfl

/-- The value of a matched `.digits` fraction lies in [0,1). -/
theorem fracVal_bounds (ds : List Char) (h : ∀ c ∈ ds, isDigit c = true) :
    0 ≤ (digitsToNat ds : ℚ) / 10 ^ ds.length
      ∧ (digitsToNat ds : ℚ) / 10 ^ ds.length < 1 := by
  constructor
  · positivity
  · rw [div_lt_one (by positivity)]
    have := digitsToNat_lt ds h
    calc (digitsToNat ds : ℚ) < ((10 ^ ds.length : ℕ) : ℚ) := by
          exact_mod_cast this
      _ = 10 ^ ds.length := by push_cast; ring

theorem matchDotDigits_shape (s m : List Char)
    (h : matchDotDigits s = some m) :
    ∃ ds, m = '.' :: ds ∧ (∀ c ∈ ds, isDigit c = true) := by
  cases s with
  | nil => exact absurd h (by simp [matchDotDigits])
  | cons c rest =>
    rw [matchDotDigits] at h
    split at h
    · split at h
      · exact absurd h (by simp)
      · refine ⟨rest.takeWhile isDigit, (Option.some_injective _ h).symm, ?_⟩
        intro d hd
        exact List.mem_takeWhile_imp hd
    · exact absurd h (by simp)

theorem branch1_shape (s m : List Char) (h : branch1 s = some m) :
    (∃ ds, m = '0' :: '.' :: ds ∧ ∀ c ∈ ds, isDigit c = true)
    ∨ (∃ ds, m = '.' :: ds ∧ ∀ c ∈ ds, isDigit c = true) := by
  cases s with
  | nil => exact absurd h (by simp [branch1])
  | cons c rest =>
    rw [branch1] at h
    split at h
    · obtain ⟨md, hmd, rfl⟩ := Option.map_eq_some'.mp h
      obtain ⟨ds, rfl, hds⟩ := matchDotDigits_shape _ _ hmd
      exact Or.inl ⟨ds, rfl, hds⟩
    · obtain ⟨ds, rfl, hds⟩ := matchDotDigits_shape _ _ h
      exact Or.inr ⟨ds, rfl, hds⟩

theorem branch2_shape (s m : List Char) (h : branch2 s = some m) :
    ∃ zs, m = '1' :: '.' :: zs ∧ ∀ c ∈ zs, (c == '0') = true := by
  rcases s with _ | ⟨c, _ | ⟨d, rest⟩⟩
  · exact absurd h (by simp [branch2])
  · exact absurd h (by simp [branch2])
  · rw [branch2] at h
    split at h
    · split at h
      · exact absurd h (by simp)
      · obtain rfl := Option.some_injective _ h
        exact ⟨_, rfl, fun e he =>
          List.mem_takeWhile_imp (p := fun c => c == '0') he⟩
    · exact absurd h (by simp)

theorem branch3_shape (s m : List Char) (h : branch3 s = some m) :
    ∃ zs zs2, m = zs ++ '.' :: zs2 ∧ (∀ c ∈ zs, (c == '0') = true)
      ∧ (∀ c ∈ zs2, (c == '0') = true) := by
  rw [branch3] at h
  split at h
  · exact absurd h (by simp)
  · split at h
    · split at h
      · exact absurd h (by simp)
      · obtain rfl := Option.some_injective _ h
        exact ⟨_, _, rfl,
          fun e he => List.mem_takeWhile_imp (p := fun c => c == '0') he,
          fun e he => List.mem_takeWhile_imp (p := fun c => c == '0') he⟩
    · exact absurd h (by simp)

theorem branch4_shape (s m : List Char) (h : branch4 s = some m) :
    m = ['1'] := by
  cases s with
  | nil => exact absurd h (by simp [branch4])
  | cons c rest =>
    rw [branch4] at h
    split at h
    · exact (Option.some_injective _ h).symm
    · exact absurd h (by simp)

theorem pyFloat_zero_dot (ds : List Char) (hds : ∀ c ∈ ds, isDigit c = true) :
    0 ≤ pyFloat ('0' :: '.' :: ds) ∧ pyFloat ('0' :: '.' :: ds) ≤ 1 := by
  have hb := fracVal_bounds ds hds
  have hd0 : digitsToNat ['0'] = 0 := by decide
  rw [pyFloat, splitNumeral_zero_dot, hd0]
  simp only [Nat.cast_zero, zero_add]
  exact ⟨hb.1, le_of_lt hb.2⟩

theorem pyFloat_dot (ds : List Char) (hds : ∀ c ∈ ds, isDigit c = true) :
    0 ≤ pyFloat ('.' :: ds) ∧ pyFloat ('.' :: ds) ≤ 1 := by
  have hb := fracVal_bounds ds hds
  rw [pyFloat, splitNumeral_dot]
  simp only [digitsToNat, Nat.cast_zero, zero_add]
  exact ⟨hb.1, le_of_lt hb.2⟩

theorem pyFloat_one_dot (zs : List Char) (h : ∀ c ∈ zs, (c == '0') = true) :
    pyFloat ('1' :: '.' :: zs) = 1 := by
  have hd1 : digitsToNat ['1'] = 1 := by decide
  rw [pyFloat, splitNumeral_one_dot, hd1, digitsToNat_zeros _ h]
  norm_num

theorem pyFloat_zeros_dot (zs zs2 : List Char)
    (h : ∀ c ∈ zs, (c == '0') = true) (h2 : ∀ c ∈ zs2, (c == '0') = true) :
    pyFloat (zs ++ '.' :: zs2) = 0 := by
  rw [pyFloat, splitNumeral_zeros_dot _ _ h, digitsToNat_zeros _ h,
    digitsToNat_zeros _ h2]
  norm_num

theorem pyFloat_one : pyFloat ['1'] = 1 := by
  have hs : splitNumeral ['1'] = (['1'], []) := by decide
  have hd : digitsToNat ['1'] = 1 := by decide
  rw [pyFloat, hs]
  simp [hd, digitsToNat]

theorem matchNumber_good (s m : List Char) (h : matchNumber s = some m) :
    0 ≤ pyFloat m ∧ pyFloat m ≤ 1 := by
  rw [matchNumber] at h
  cases hb1 : branch1 s with
  | some m1 =>
    rw [hb1] at h
    simp only [Option.orElse] at h
    obtain rfl := Option.some_injective _ h
    rcases branch1_shape _ _ hb1 with ⟨ds, rfl, hds⟩ | ⟨ds, rfl, hds⟩
    · exact pyFloat_zero_dot ds hds
    · exact pyFloat_dot ds hds
  | none =>
    rw [hb1] at h
    simp only [Option.orElse] at h
    cases hb2 : branch2 s with
    | some m2 =>
      rw [hb2] at h
      simp only [Option.orElse] at h
      obtain rfl := Option.some_injective _ h
      obtain ⟨zs, rfl, hzs⟩ := branch2_shape _ _ hb2
      rw [pyFloat_one_dot zs hzs]
      norm_num
    | none =>
      rw [hb2] at h
      simp only [Option.orElse] at h
      cases hb3 : branch3 s with
      | some m3 =>
        rw [hb3] at h
        simp only [Option.orElse] at h
        obtain rfl := Option.some_injective _ h
        obtain ⟨zs, zs2, rfl, hzs, hzs2⟩ := branch3_shape _ _ hb3
        rw [pyFloat_zeros_dot zs zs2 hzs hzs2]
        norm_num
      | none =>
        rw [hb3] at h
        simp only [Option.orElse] at h
        obtain rfl := branch4_shape _ _ h
        rw [pyFloat_one]
        norm_num

theorem matchPattern_good (label s m : List Char)
    (h : matchPattern label s = some m) : 0 ≤ pyFloat m ∧ pyFloat m ≤ 1 := by
  rw [matchPattern] at h
  split at h
  · exact absurd h (by simp)
  · split at h
    · exact absurd h (by simp)
    · split at h
      · exact matchNumber_good _ _ h
      · exact absurd h (by simp)

theorem searchPattern_good (label : List Char) :
    ∀ s m : List Char, searchPattern label s = some m →
      0 ≤ pyFloat m ∧ pyFloat m ≤ 1 := by
  intro s
  induction s with
  | nil =>
    intro m h
    rw [searchPattern] at h
    split at h
    · rename_i m0 hm0
      obtain rfl := Option.some_injective _ h
      exact matchPattern_good _ _ _ hm0
    · exact absurd h (by simp)
  | cons c rest ih =>
    intro m h
    rw [searchPattern] at h
    split at h
    · rename_i m0 hm0
      obtain rfl := Option.some_injective _ h
      exact matchPattern_good _ _ _ hm0
    · exact ih m h

theorem foldl_extractStep_good (sec : List Char) (os : List String) :
    ∀ acc : List (String × List Char),
      (∀ kv ∈ acc, 0 ≤ pyFloat kv.2 ∧ pyFloat kv.2 ≤ 1) →
      ∀ kv ∈ os.foldl (extractStep sec) acc,
        0 ≤ pyFloat kv.2 ∧ pyFloat kv.2 ≤ 1 := by
  induction os with
  | nil =>
    intro acc hacc kv hkv
    exact hacc kv hkv
  | cons o os ih =>
    intro acc hacc
    simp only [List.foldl_cons]
    apply ih
    intro kv hkv
    rw [extractStep] at hkv
    split at hkv
    · exact hacc kv hkv
    · split at hkv
      · rename_i m hm
        rcases List.mem_append.mp hkv with hin | hin
        · exact hacc kv hin
        · obtain rfl := List.mem_singleton.mp hin
          exact searchPattern_good _ _ _ hm
      · exact hacc kv hkv

theorem extractProbs_good (text : String) (outcomes : List String) :
    ∀ kv ∈ extractProbs text outcomes, 0 ≤ kv.2 ∧ kv.2 ≤ 1 := by
  intro kv hkv
  rw [extractProbs] at hkv
  obtain ⟨kv', hkv', rfl⟩ := List.mem_map.mp hkv
  exact foldl_extractStep_good _ outcomes [] (by simp) kv' hkv'

/-- C10: every value in the mapping returned by the extractor lies in
[0,1] — the number pattern only admits values in [0,1], and proportional
rescaling keeps each value in [0,1] because a non-negative value is at
most the sum it is divided by. -/
theorem C10_values_in_unit_interval (text : String) (outcomes : List String) :
    ∀ kv ∈ parse_probabilities text outcomes, 0 ≤ kv.2 ∧ kv.2 ≤ 1 := by
  have hE := extractProbs_good text outcomes
  intro kv hkv
  simp only [parse_probabilities] at hkv
  split at hkv
  · rename_i hcond
    obtain ⟨kv', hkv', rfl⟩ := List.mem_map.mp hkv
    have hv := hE kv' hkv'
    have hT : (0:ℚ) < ((extractProbs text outcomes).map Prod.snd).sum :=
      lt_trans (by norm_num) hcond.2.1
    refine ⟨div_nonneg hv.1 hT.le, ?_⟩
    rw [div_le_one hT]
    have hnn : ∀ x ∈ (extractProbs text outcomes).map Prod.snd, (0:ℚ) ≤ x := by
      intro x hx
      obtain ⟨kv2, hkv2, rfl⟩ := List.mem_map.mp hx
      exact (hE kv2 hkv2).1
    exact List.single_le_sum hnn _ (List.mem_map_of_mem Prod.snd hkv')
  · exact hE kv hkv

theorem extractProbs_example_eval :
    extractProbs exampleResponse ["Yes", "No", "Maybe"]
      = [("Yes", 1/2), ("No", 9/20)] := by
  have hraw : extractRaw exampleResponse ["Yes", "No", "Maybe"]
      = [("Yes", ['0', '.', '5']), ("No", ['0', '.', '4', '5'])] := by decide
  have h1 : splitNumeral ['0', '.', '5'] = (['0'], ['5']) := by decide
  have h2 : splitNumeral ['0', '.', '4', '5'] = (['0'], ['4', '5']) := by decide
  have d0 : digitsToNat ['0'] = 0 := by decide
  have d5 : digitsToNat ['5'] = 5 := by decide
  have d45 : digitsToNat ['4', '5'] = 45 := by decide
  rw [extractProbs, hraw]
  simp [pyFloat, h1, h2, d0, d5, d45]
  norm_num

theorem parse_probabilities_example_eval :
    parse_probabilities exampleResponse ["Yes", "No", "Maybe"]
      = [("Yes", 10/19), ("No", 9/19)] := by
  simp only [parse_probabilities, extractProbs_example_eval]
  rw [if_pos]
  · norm_num
  · refine ⟨by simp, by norm_num, by norm_num, by norm_num⟩

/-- Witness for C3 on the example response (extracted sum 0.95): the
returned mapping is the rescaled one, sums to exactly 1, and the
unmatched outcome "Maybe" stays absent. -/
theorem C3_renormalization_spec_witness :
    parse_probabilities exampleResponse ["Yes", "No", "Maybe"]
      = (extractProbs exampleResponse ["Yes", "No", "Maybe"]).map
          (fun kv => (kv.1, kv.2
            / ((extractProbs exampleResponse ["Yes", "No", "Maybe"]).map
                Prod.snd).sum))
    ∧ ((parse_probabilities exampleResponse
          ["Yes", "No", "Maybe"]).map Prod.snd).sum = 1
    ∧ "Maybe" ∉ (parse_probabilities exampleResponse
          ["Yes", "No", "Maybe"]).map Prod.fst := by
  have h := C3_renormalization_spec exampleResponse ["Yes", "No", "Maybe"]
  have hmain := h.1 (by rw [extractProbs_example_eval]; simp)
    (by rw [extractProbs_example_eval]; norm_num)
    (by rw [extractProbs_example_eval]; norm_num)
    (by rw [extractProbs_example_eval]; norm_num)
  have hmaybe := h.2.2 "Maybe" (by rw [extractProbs_example_eval]; simp)
  exact ⟨hmain.1, hmain.2.1, hmaybe⟩

/-- Witness for C10: the rescaled "Yes" value 10/19 is in the output and
lies in [0,1]. -/
theorem C10_values_in_unit_interval_witness :
    ("Yes", (10:ℚ)/19) ∈ parse_probabilities exampleResponse
      ["Yes", "No", "Maybe"]
    ∧ (0:ℚ) ≤ 10/19 ∧ (10:ℚ)/19 ≤ 1 := by
  have hmem : ("Yes", (10:ℚ)/19) ∈ parse_probabilities exampleResponse
      ["Yes", "No", "Maybe"] := by
    rw [parse_probabilities_example_eval]
    exact List.mem_cons_self _ _
  exact ⟨hmem,
    C10_values_in_unit_interval exampleResponse ["Yes", "No", "Maybe"] _ hmem⟩

theorem dedupCIAux_sublist (l seen : List String) :
    (dedupCIAux l seen).Sublist l := by
  induction l generalizing seen with
  | nil => simp [dedupCIAux]
  | cons q rest ih =>
    rw [dedupCIAux]
    split
    · exact (ih seen).cons _
    · exact (ih _).cons₂ _

theorem mem_dedupCIAux (l seen : List String) :
    ∀ s ∈ dedupCIAux l seen, seen.contains (strLower s) = false := by
  induction l generalizing seen with
  | nil => simp [dedupCIAux]
  | cons q rest ih =>
    intro s hs
    rw [dedupCIAux] at hs
    split at hs
    · exact ih seen s hs
    · rcases List.mem_cons.mp hs with rfl | hs'
      · rename_i hq
        exact Bool.eq_false_iff.mpr hq
      · have h := ih _ s hs'
        simp only [List.contains_cons, Bool.or_eq_false_iff] at h
        exact h.2

theorem nodup_dedupCIAux (l seen : List String) :
    ((dedupCIAux l seen).map strLower).Nodup := by
  induction l generalizing seen with
  | nil => simp [dedupCIAux]
  | cons q rest ih =>
    rw [dedupCIAux]
    split
    · exact ih seen
    · simp only [List.map_cons, List.nodup_cons]
      refine ⟨?_, ih _⟩
      intro hmem
      obtain ⟨s, hs, hlow⟩ := List.mem_map.mp hmem
      have h := mem_dedupCIAux _ _ s hs
      simp only [List.contains_cons, Bool.or_eq_false_iff] at h
      exact absurd (beq_iff_eq.mpr hlow)
        (Bool.eq_false_iff.mp h.1)

theorem find?_dedupCIAux (l seen : List String) :
    ∀ s ∈ dedupCIAux l seen,
      l.find? (fun t => strLower t == strLower s) = some s := by
  induction l generalizing seen with
  | nil => simp [dedupCIAux]
  | cons q rest ih =>
    intro s hs
    rw [dedupCIAux] at hs
    split at hs
    · rename_i hq
      have h := mem_dedupCIAux _ _ s hs
      have hne : strLower q ≠ strLower s := by
        intro heq
        rw [← heq] at h
        exact absurd hq (Bool.eq_false_iff.mp h)
      rw [List.find?_cons_of_neg (p := fun t => strLower t == strLower s)
        (a := q) rest (fun hf => hne (beq_iff_eq.mp hf))]
      exact ih seen s hs
    · rcases List.mem_cons.mp hs with rfl | hs'
      · exact List.find?_cons_of_pos _ (beq_self_eq_true _)
      · have h := mem_dedupCIAux _ _ s hs'
        simp only [List.contains_cons, Bool.or_eq_false_iff] at h
        have hne : strLower q ≠ strLower s := fun heq =>
          absurd (beq_iff_eq.mpr heq.symm) (Bool.eq_false_iff.mp h.1)
        rw [List.find?_cons_of_neg (p := fun t => strLower t == strLower s)
          (a := q) rest (fun hf => hne (beq_iff_eq.mp hf))]
        exact ih _ s hs'

/-- C7 counterexample: on "Will Jerome Powell resign before 2026?" the
entity regex captures the leading capitalised "Will", so the derived
queries contain "Will Jerome Powell" — "Jerome Powell" is NOT among
them, contradicting the claim. -/
theorem C7_entity_query_counterexample :
    "Jerome Powell"
      ∉ extract_search_queries "Will Jerome Powell resign before 2026?" 3 := by
  decide

/-- C7 (amended): on the example question the first query is the cleaned
full question and the entity query is "Will Jerome Powell" (the
capitalised-run heuristic includes the leading "Will"); in general the
output has at most 3 queries, is case-insensitively duplicate-free, and
keeps first-seen order (each output query is the first of the raw derived
queries with its lowered form). -/
theorem C7_extract_search_queries_amended :
    extract_search_queries "Will Jerome Powell resign before 2026?" 3
      = ["Will Jerome Powell resign before 2026", "Will Jerome Powell",
         "Jerome Powell resign 2026"]
    ∧ ∀ q : String,
        (extract_search_queries q 3).length ≤ 3
        ∧ ((extract_search_queries q 3).map strLower).Nodup
        ∧ (extract_search_queries q 3).Sublist (rawQueries q)
        ∧ ∀ s ∈ extract_search_queries q 3,
            (rawQueries q).find? (fun t => strLower t == strLower s)
              = some s := by
  refine ⟨by decide, fun q => ⟨List.length_take_le _ _, ?_, ?_, ?_⟩⟩
  · rw [extract_search_queries, dedupCI, List.map_take]
    exact (nodup_dedupCIAux (rawQueries q) []).sublist (List.take_sublist _ _)
  · exact (List.take_sublist _ _).trans (dedupCIAux_sublist _ _)
  · intro s hs
    exact find?_dedupCIAux _ _ s (List.take_subset _ _ hs)

/-- Witness for C7 (amended): the first query of the example is in the
output and is the first raw query with its lowered form. -/
theorem C7_extract_search_queries_amended_witness :
    "Will Jerome Powell resign before 2026"
      ∈ extract_search_queries "Will Jerome Powell resign before 2026?" 3
    ∧ (rawQueries "Will Jerome Powell resign before 2026?").find?
        (fun t => strLower t
          == strLower "Will Jerome Powell resign before 2026")
      = some "Will Jerome Powell resign before 2026" := by
  have h := C7_extract_search_queries_amended
  have hmem : "Will Jerome Powell resign before 2026"
      ∈ extract_search_queries "Will Jerome Powell resign before 2026?" 3 := by
    decide
  exact ⟨hmem,
    (h.2 "Will Jerome Powell resign before 2026?").2.2.2 _ hmem⟩

/-- Witness for C9: on the example table, bucket 6 is non-empty, hence
present in the output with the stated statistics. -/
theorem C9_get_calibration_data_spec_witness :
    bucketFor exampleDb 6 ∈ get_calibration_data exampleDb
    ∧ (0 < (bucketFor exampleDb 6).count
        ∧ ∃ i : Nat, i < 10 ∧ bucketFor exampleDb 6 = bucketFor exampleDb i) := by
  have h := C9_get_calibration_data_spec
  have hc : 0 < (bucketFor exampleDb 6).count := by
    norm_num [bucketFor, calibRowFilter, exampleDb, List.filter_cons]
  have hmem := h.2.1 exampleDb 6 (by norm_num) hc
  exact ⟨hmem, h.1 exampleDb _ hmem⟩

end Polyforecast
